import Mathlib

/-!
Verification development for the SFTP downloader `FTP_IPI.py`.

The Python source is shallowly embedded below:

* transfer settings (`CHUNK_SIZE`, `MAX_RETRIES`, `RETRY_BACKOFF`) are the
  module-level constants of the source;
* the filename-selection logic of `main` (`extract_date`, the date filter,
  and Python's `min(..., key=extract_date)`) becomes pure list functions;
* `MilitaryGradeSFTP.close` becomes a function over oracles describing the
  outcomes of the two underlying `close()` calls, with the source's
  try/except swallowing;
* `MilitaryGradeSFTP.download_with_armor` becomes a fuel-indexed loop over an
  environment (`DLEnv`) supplying the remote stat size, the local file size,
  and oracles for the successive results of `time.time()`,
  `verify_connection()` and `remote_file.read(CHUNK_SIZE)`;
* the retry loop of `main` becomes `runLoop`/`runMain` over per-attempt
  environments, producing an event log (record reads/writes, sleeps,
  connection closes, attempt starts) used to state the temporal claims.
-/

/-- `CHUNK_SIZE = 2 * 1024 * 1024` from the source. -/
def CHUNK_SIZE : Nat := 2 * 1024 * 1024

/-- `MAX_RETRIES = 7` from the source. -/
def MAX_RETRIES : Nat := 7

/-- `RETRY_BACKOFF = [5, 10, 30, 60, 120, 300, 600]` from the source. -/
def RETRY_BACKOFF : List Nat := [5, 10, 30, 60, 120, 300, 600]

/-- Does `pat` occur at the head of `l`?  (Manual substring helper used to
embed Python's `'IPI' in f`.) -/
def listStartsWith : List Char → List Char → Bool
  | _, [] => true
  | [], _ :: _ => false
  | a :: as, b :: bs => a == b && listStartsWith as bs

/-- Does `pat` occur as a contiguous substring of `l`?  Embeds Python's
`pat in s` on strings. -/
def listContainsSub : List Char → List Char → Bool
  | [], pat => pat.isEmpty
  | a :: as, pat => listStartsWith (a :: as) pat || listContainsSub as pat

/-- The fixed case-sensitive marker `'IPI'` used by
`[f for f in engine.sftp.listdir() if 'IPI' in f]`. -/
def ipiMarker : List Char := "IPI".data

/-- `''.join(filter(str.isdigit, s))`: the digit characters of `s`, in order. -/
def digitsOf (s : String) : String :=
  ⟨s.data.filter Char.isDigit⟩

/-- `extract_date` from `main`: the digits of the name if there are exactly 8
of them, else `None`. -/
def extract_date (file_name : String) : Option String :=
  let digits := digitsOf file_name
  if digits.length = 8 then some digits else none

/-- The key used by `min(filtered_files, key=lambda x: extract_date(x))`.
On every member of `filtered_files` the `extract_date` is a `some`, so the
default never matters there. -/
def dateKey (f : String) : String :=
  (extract_date f).getD ""

/-- Python's `<` on strings: lexicographic comparison of the code-point
sequences (computable, structurally recursive).  Agrees with the `Lex`
order on `List Char` (`listCharLt_iff`). -/
def listCharLt : List Char → List Char → Bool
  | [], [] => false
  | [], _ :: _ => true
  | _ :: _, [] => false
  | a :: as, b :: bs =>
    if a.toNat < b.toNat then true
    else if b.toNat < a.toNat then false
    else listCharLt as bs

/-- The filter of the selection loop in `main`: a candidate is kept when
`extract_date` yields a (truthy) token and either no prior record exists or
the token is strictly greater than the record's digit string
(`file_date > last_date_str`, Python string comparison). -/
def eligible (last_date_str : Option String) (f : String) : Bool :=
  match extract_date f with
  | none => false
  | some d =>
    match last_date_str with
    | none => true
    | some r => listCharLt r.data d.data

/-- `filtered_files` from `main`. -/
def filteredFiles (files : List String) (last_date_str : Option String) : List String :=
  files.filter (eligible last_date_str)

/-- Python's `min(l, key)` for nonempty `l`: the first element with the
strictly smallest key.  Returns `none` on the empty list (the source guards
with `if not filtered_files: return`). -/
def pythonMinBy (key : String → String) : List String → Option String
  | [] => none
  | h :: t =>
    some (t.foldl (fun best x => if listCharLt (key x).data (key best).data then x else best) h)

/-- The whole selection step of `main`: filter by date, then take the
candidate with the smallest date token (`None` when the filtered list is
empty). -/
def selectFile (files : List String) (last_date_str : Option String) : Option String :=
  pythonMinBy dateKey (filteredFiles files last_date_str)

namespace MilitaryGradeSFTP

/-- `MilitaryGradeSFTP.close`.  `hasSftp` / `hasTransport` say whether
`self.sftp` / `self.transport` are non-`None` (never opened vs opened), and
`sftpRes` / `transportRes` are oracles for what the underlying `close()`
calls would do (`Except.error` = the call raises, e.g. on an already-closed
channel).  Each call sits in its own `try: ... except: pass`, exactly as in
the source, so the result is always `Except.ok ()`. -/
def close (hasSftp hasTransport : Bool) (sftpRes transportRes : Except String Unit) :
    Except String Unit :=
  let r1 : Except String Unit :=
    if hasSftp then
      match sftpRes with
      | Except.ok u => Except.ok u
      | Except.error _ => Except.ok ()
    else Except.ok ()
  match r1 with
  | Except.ok _ =>
    if hasTransport then
      match transportRes with
      | Except.ok u => Except.ok u
      | Except.error _ => Except.ok ()
    else Except.ok ()
  | Except.error e => Except.error e

end MilitaryGradeSFTP

/-- Environment of one `download_with_armor` call.  Oracles are indexed by
call number: `timeSeq k` is the result of the `k`-th `time.time()` call,
`aliveSeq k` the result of the `k`-th `verify_connection()` probe, and
`readSeq k` the `k`-th `remote_file.read(CHUNK_SIZE)` — `none` meaning the
read raises (`SSHException`/`EOFError`), `some n` meaning the server hands
back `n` bytes (capped in the model by `CHUNK_SIZE` and by the bytes
remaining in the fixed-size remote file). -/
structure DLEnv where
  fileSize : Nat
  localSize : Option Nat
  timeSeq : Nat → Nat
  aliveSeq : Nat → Bool
  readSeq : Nat → Option Nat

/-- `self.last_byte = os.path.getsize(local_path) if os.path.exists(local_path) else 0`. -/
def resumeOf (env : DLEnv) : Nat :=
  env.localSize.getD 0

/-- How the `while` loop of `download_with_armor` ends. -/
inductive LoopExit
  | done      -- loop condition became false, or a read returned zero bytes (`break`)
  | watchdog  -- `raise paramiko.SSHException("Connection watchdog triggered")`
  | chunkErr  -- the chunk read raised and was re-raised
  | divZero   -- `ZeroDivisionError` in the progress-reporting branch
  | noFuel    -- fuel exhausted (unreachable with fuel `fileSize + 1`)
  deriving DecidableEq, Repr

/-- Mutable loop state: `last_byte` plus the oracle call counters. -/
structure LoopSt where
  lastByte : Nat
  tIdx : Nat
  aIdx : Nat
  rIdx : Nat
  reads : Nat
  deriving DecidableEq, Repr

/-- Result of running the chunk loop: how it exited, the final state, the
probes performed (`(time, result)` pairs) and the values of `last_byte` at
each evaluation of the loop condition. -/
structure LoopRes where
  exit : LoopExit
  st : LoopSt
  probes : List (Nat × Bool)
  trace : List Nat
  deriving DecidableEq, Repr

/-- One-to-one embedding of `while self.last_byte < self.file_size: ...`
from `download_with_armor`.  Each iteration: sample `time.time()`; when it is
`≡ 0 (mod 10)` consult `verify_connection()` and abort on a dead connection;
read a chunk (abort if the read raises, `break` on an empty chunk, otherwise
append and advance `last_byte`); then sample `time.time()` again and, when it
is `≡ 0 (mod 30)`, recompute `time.time() % 30` as the throughput divisor —
zero there raises `ZeroDivisionError`. -/
def dlLoop (env : DLEnv) : Nat → LoopSt → LoopRes
  | 0, s => ⟨.noFuel, s, [], []⟩
  | fuel + 1, s =>
    if env.fileSize ≤ s.lastByte then ⟨.done, s, [], [s.lastByte]⟩
    else
      let t1 := env.timeSeq s.tIdx
      let wd : Bool := decide (t1 % 10 = 0)
      let alive := env.aliveSeq s.aIdx
      let s1 : LoopSt := ⟨s.lastByte, s.tIdx + 1, s.aIdx + (if wd then 1 else 0),
                          s.rIdx, s.reads⟩
      let ps0 : List (Nat × Bool) := if wd then [(t1, alive)] else []
      if wd && !alive then ⟨.watchdog, s1, ps0, [s.lastByte]⟩
      else
        match env.readSeq s1.rIdx with
        | none => ⟨.chunkErr, ⟨s1.lastByte, s1.tIdx, s1.aIdx, s1.rIdx + 1, s1.reads + 1⟩,
                   ps0, [s.lastByte]⟩
        | some n =>
          let len := min (min n CHUNK_SIZE) (env.fileSize - s.lastByte)
          if len = 0 then
            ⟨.done, ⟨s1.lastByte, s1.tIdx, s1.aIdx, s1.rIdx + 1, s1.reads + 1⟩,
             ps0, [s.lastByte]⟩
          else
            let s4 : LoopSt := ⟨s.lastByte + len, s1.tIdx, s1.aIdx, s1.rIdx + 1, s1.reads + 1⟩
            let t2 := env.timeSeq s4.tIdx
            if t2 % 30 = 0 then
              let t3 := env.timeSeq (s4.tIdx + 1)
              if t3 % 30 = 0 then
                ⟨.divZero, ⟨s4.lastByte, s4.tIdx + 2, s4.aIdx, s4.rIdx, s4.reads⟩,
                 ps0, [s.lastByte]⟩
              else
                let r := dlLoop env fuel ⟨s4.lastByte, s4.tIdx + 2, s4.aIdx, s4.rIdx, s4.reads⟩
                ⟨r.exit, r.st, ps0 ++ r.probes, s.lastByte :: r.trace⟩
            else
              let r := dlLoop env fuel ⟨s4.lastByte, s4.tIdx + 1, s4.aIdx, s4.rIdx, s4.reads⟩
              ⟨r.exit, r.st, ps0 ++ r.probes, s.lastByte :: r.trace⟩

/-- Outcome of a whole `download_with_armor` call. -/
inductive DLOutcome
  | success        -- `return True`
  | watchdogError  -- SSHException from the watchdog
  | chunkError     -- re-raised read failure
  | divByZero      -- ZeroDivisionError from the progress report
  | verifyError    -- `raise IOError("Final size verification failed")`
  | fuelOut        -- fuel exhausted (unreachable)
  deriving DecidableEq, Repr

/-- Observable result of `download_with_armor`: the outcome, the local file's
final size, how many network chunk reads were issued, the watchdog probes
performed, and the `last_byte` trace of the chunk loop. -/
structure DLResult where
  outcome : DLOutcome
  finalSize : Nat
  chunkReads : Nat
  probes : List (Nat × Bool)
  trace : List Nat
  deriving DecidableEq, Repr

/-- `MilitaryGradeSFTP.download_with_armor`.  Stat gives `env.fileSize`; the
resume offset is the local size (0 when absent); if `last_byte >= file_size`
the call returns `True` at once — before the remote file and the local file
are ever opened.  Otherwise the chunk loop runs and on normal exit the final
local size is compared against `file_size`. -/
def download_with_armor (env : DLEnv) : DLResult :=
  if env.fileSize ≤ resumeOf env then
    ⟨.success, resumeOf env, 0, [], []⟩
  else
    let r := dlLoop env (env.fileSize + 1) ⟨resumeOf env, 0, 0, 0, 0⟩
    ⟨(match r.exit with
      | .done => if r.st.lastByte = env.fileSize then .success else .verifyError
      | .watchdog => .watchdogError
      | .chunkErr => .chunkError
      | .divZero => .divByZero
      | .noFuel => .fuelOut),
     r.st.lastByte, r.st.reads, r.probes, r.trace⟩

/-- Per-attempt environment of `main`'s retry loop.  `connectOk` — whether
`engine.connect()` succeeds; `listing` — the result of `sftp.listdir()`;
`downloadOk` — whether `download_with_armor` returns `True` (it otherwise
raises, never returning `False`); `recordWriteOk` — whether
`open(LAST_FILE_RECORD, 'w')` / `f.write` succeeds; `copyOk` — whether the
`shutil.copy2` to the server directory succeeds. -/
structure AttemptEnv where
  connectOk : Bool
  listing : List String
  downloadOk : Bool
  recordWriteOk : Bool
  copyOk : Bool

/-- How a whole run of `main` can end. -/
inductive RunOutcome
  | noFiles       -- "No matching files found", return
  | noNewFiles    -- "No new files to download after last_file.txt date", return
  | accomplished  -- "Mission accomplished", return
  | exhausted     -- loop ran out of attempts: "OPERATION FAILED"
  deriving DecidableEq, Repr

/-- Observable events of a run of `main`, in program order. -/
inductive Ev
  | attemptStart (n : Nat)  -- "Attempt n of MAX_RETRIES"
  | readRecord              -- `open(LAST_FILE_RECORD, 'r')`
  | writeRecord             -- successful `open(LAST_FILE_RECORD, 'w')` + write
  | sleep (d : Nat)         -- `time.sleep(delay)` in the except branch
  | close                   -- `engine.close()` in the finally branch
  | copy                    -- successful `shutil.copy2` to SERVER_DIR
  deriving DecidableEq, Repr

/-- The record file is opened and read only when `LAST_FILE_RECORD.exists()`. -/
def recReadEvs (rec : Option String) : List Ev :=
  match rec with
  | some _ => [.readRecord]
  | none => []

/-- The body of one `try:` block of `main`'s retry loop (everything between
`engine.connect()` and the `except`/`finally`).  Returns
`(returned?, record', events)`: `returned? = some o` when the body reached a
`return` with run outcome `o`, `none` when it raised and the loop will
consider another attempt.  `record'` is the persisted record after the body.
A failing record write (`recordWriteOk = false`) raises out of the `try`
block — the source does not guard it — whereas a failing copy is caught by
its own inner `try/except` and only logged. -/
def attemptCore (a : AttemptEnv) (rec : Option String) :
    Option RunOutcome × Option String × List Ev :=
  if a.connectOk = false then (none, rec, [])
  else
    let evs1 := recReadEvs rec
    let files := a.listing.filter (fun f => listContainsSub f.data ipiMarker)
    if files = [] then (some .noFiles, rec, evs1)
    else
      match selectFile files (rec.map digitsOf) with
      | none => (some .noNewFiles, rec, evs1)
      | some rf =>
        if a.downloadOk = false then (none, rec, evs1)
        else if a.recordWriteOk = false then (none, rec, evs1)
        else (some .accomplished, some rf,
              evs1 ++ [.writeRecord] ++ (if a.copyOk then [.copy] else []))

/-- Result of a run of `main`. -/
structure RunResult where
  outcome : RunOutcome
  record : Option String
  events : List Ev
  deriving DecidableEq, Repr

/-- `for attempt in range(MAX_RETRIES)` of `main`, from attempt index `i`
with `fuel` attempts left.  On a raised attempt the except branch sleeps
`RETRY_BACKOFF[attempt]` when attempts remain, and the finally branch always
closes the connection; a `return` inside `try` still runs the finally close
first. -/
def runLoop (env : Nat → AttemptEnv) : Option String → Nat → Nat → RunResult
  | rec, _, 0 => ⟨.exhausted, rec, []⟩
  | rec, i, fuel + 1 =>
    let r := attemptCore (env i) rec
    match r.1 with
    | some o => ⟨o, r.2.1, .attemptStart (i + 1) :: r.2.2 ++ [.close]⟩
    | none =>
      let tailEvs : List Ev :=
        if i < MAX_RETRIES - 1 then [.sleep (RETRY_BACKOFF.getD i 0)] else []
      let rest := runLoop env r.2.1 (i + 1) fuel
      ⟨rest.outcome, rest.record,
       (.attemptStart (i + 1) :: r.2.2 ++ tailEvs ++ [.close]) ++ rest.events⟩

/-- A whole run of `main`: `MAX_RETRIES` attempts starting from attempt 0,
with `rec` the initial content of `LAST_FILE_RECORD` (`none` = absent). -/
def runMain (env : Nat → AttemptEnv) (rec : Option String) : RunResult :=
  runLoop env rec 0 MAX_RETRIES

/-- The sleep durations occurring in an event list, in order. -/
def sleeps (l : List Ev) : List Nat :=
  l.filterMap (fun e => match e with | .sleep d => some d | _ => none)

/-- Recognizer for `Ev.attemptStart`. -/
def isStartEv : Ev → Bool
  | .attemptStart _ => true
  | _ => false

/-- Recognizer for `Ev.close`. -/
def isCloseEv : Ev → Bool
  | .close => true
  | _ => false

/-- Recognizer for `Ev.readRecord`. -/
def isReadRecEv : Ev → Bool
  | .readRecord => true
  | _ => false

/-- Recognizer for `Ev.writeRecord`. -/
def isWriteRecEv : Ev → Bool
  | .writeRecord => true
  | _ => false

/-- A 5-byte remote file, a 7-byte local file already on disk: the
already-complete short-circuit case. -/
def envComplete : DLEnv := ⟨5, some 7, fun _ => 0, fun _ => true, fun _ => some 0⟩

/-- A 5-byte remote file, no local file, and a first read that returns zero
bytes: the loop `break`s early and final verification fails. -/
def envShortRead : DLEnv := ⟨5, none, fun _ => 1, fun _ => true, fun _ => some 0⟩

/-- An attempt whose download raises (`downloadOk = false`). -/
def attemptDownloadFails : AttemptEnv := ⟨true, ["20250102.IPI"], false, true, true⟩

/-- A 2-byte remote file read one byte at a time with the clock stuck at 10:
the `time.time() % 10 == 0` gate fires on two consecutive chunk iterations
with zero wall-clock time between the probes. -/
def envDoubleProbe : DLEnv := ⟨2, none, fun _ => 10, fun _ => true, fun _ => some 1⟩

/-- Same clock, but the connection probe reports dead: the watchdog aborts
the attempt. -/
def envDeadProbe : DLEnv := ⟨2, none, fun _ => 10, fun _ => false, fun _ => some 1⟩

/-- A resumed download: 3-byte remote file, 1 byte already local, reads of
one byte each. -/
def envResume : DLEnv := ⟨3, some 1, fun _ => 1, fun _ => true, fun _ => some 1⟩

/-- Clock stuck at 30: the progress-report guard `time.time() % 30 == 0`
holds and the freshly re-evaluated divisor `time.time() % 30` is zero. -/
def envDivZero : DLEnv := ⟨1, none, fun _ => 30, fun _ => true, fun _ => some 1⟩

/-- Attempt 0 downloads fine but the record write raises; later attempts
cannot even connect. -/
def envRecordWriteFails : Nat → AttemptEnv := fun i =>
  if i = 0 then ⟨true, ["20250102.IPI"], true, false, true⟩
  else ⟨false, [], true, true, true⟩

/-- All attempts succeed except that the copy to the server directory fails. -/
def envCopyFails : Nat → AttemptEnv := fun _ => ⟨true, ["20250102.IPI"], true, true, false⟩

/-- Every attempt fails at `engine.connect()`. -/
def envAllFail : Nat → AttemptEnv := fun _ => ⟨false, [], true, true, true⟩

/-- Attempt 0 fails in the download, attempt 1 succeeds: the record file is
read once per attempt, i.e. twice in this run. -/
def envSecondTry : Nat → AttemptEnv := fun i =>
  if i = 0 then ⟨true, ["20250102.IPI"], false, true, true⟩
  else ⟨true, ["20250102.IPI"], true, true, true⟩

lemma extract_date_digits {s d : String} (h : extract_date s = some d) : digitsOf s = d := by
  simp only [extract_date] at h
  split at h
  · exact Option.some_injective _ h
  · exact absurd h (by simp)

lemma char_eq_of_not_toNat_lt {a b : Char} (h1 : ¬ a.toNat < b.toNat)
    (h2 : ¬ b.toNat < a.toNat) : a = b :=
  le_antisymm (le_of_not_lt (fun hh => h2 hh)) (le_of_not_lt (fun hh => h1 hh))

lemma listCharLt_iff : ∀ a b : List Char, listCharLt a b = true ↔ a < b := by
  intro a
  induction a with
  | nil =>
    intro b
    cases b with
    | nil =>
      simp only [listCharLt, Bool.false_eq_true, false_iff]
      exact List.Lex.not_nil_right _ _
    | cons c cs =>
      simp only [listCharLt, true_iff]
      exact List.Lex.nil
  | cons a as ih =>
    intro b
    cases b with
    | nil =>
      simp only [listCharLt, Bool.false_eq_true, false_iff]
      exact List.Lex.not_nil_right _ _
    | cons c cs =>
      by_cases h1 : a.toNat < c.toNat
      · simp only [listCharLt, if_pos h1, true_iff]
        exact List.Lex.rel h1
      · by_cases h2 : c.toNat < a.toNat
        · simp only [listCharLt, if_neg h1, if_pos h2, Bool.false_eq_true, false_iff]
          intro hlex
          cases hlex with
          | cons h => omega
          | rel h => exact h1 h
        · have heq : a = c := char_eq_of_not_toNat_lt h1 h2
          subst heq
          simp only [listCharLt, if_neg h1, if_neg h2]
          rw [ih cs]
          exact Iff.symm List.Lex.cons_iff

lemma eligible_true_iff (last : Option String) (f : String) :
    eligible last f = true ↔
      ∃ d, extract_date f = some d ∧ ∀ r, last = some r → r.data < d.data := by
  unfold eligible
  cases he : extract_date f with
  | none => simp
  | some d =>
    cases last with
    | none => simp
    | some r => simp [listCharLt_iff]

lemma mem_filteredFiles_iff (files : List String) (last : Option String) (f : String) :
    f ∈ filteredFiles files last ↔
      f ∈ files ∧ ∃ d, extract_date f = some d ∧ ∀ r, last = some r → r.data < d.data := by
  rw [filteredFiles, List.mem_filter, eligible_true_iff]

lemma foldl_min_mem (key : String → String) (h : String) (t : List String) :
    t.foldl (fun best x => if listCharLt (key x).data (key best).data then x else best) h
      ∈ h :: t := by
  induction t generalizing h with
  | nil => simp
  | cons b bs ih =>
    simp only [List.foldl_cons]
    by_cases hc : listCharLt (key b).data (key h).data = true
    · rw [if_pos hc]
      have := ih b
      simp only [List.mem_cons] at this ⊢
      tauto
    · rw [if_neg hc]
      have := ih h
      simp only [List.mem_cons] at this ⊢
      tauto

lemma foldl_min_le (key : String → String) (h : String) (t : List String) :
    ∀ x ∈ h :: t,
      (key (t.foldl (fun best x => if listCharLt (key x).data (key best).data then x else best)
        h)).data ≤ (key x).data := by
  induction t generalizing h with
  | nil =>
    intro x hx
    simp only [List.mem_cons, List.not_mem_nil, or_false] at hx
    subst hx
    simp
  | cons b bs ih =>
    intro x hx
    simp only [List.foldl_cons]
    rcases List.mem_cons.1 hx with rfl | hx'
    · by_cases hc : listCharLt (key b).data (key x).data = true
      · rw [if_pos hc]
        exact le_trans (ih b b (by simp)) (le_of_lt ((listCharLt_iff _ _).mp hc))
      · rw [if_neg hc]
        exact ih x x (by simp)
    · rcases List.mem_cons.1 hx' with rfl | hx''
      · by_cases hc : listCharLt (key x).data (key h).data = true
        · rw [if_pos hc]
          exact ih x x (by simp)
        · rw [if_neg hc]
          have hnlt : ¬ (key x).data < (key h).data := fun hh => hc ((listCharLt_iff _ _).mpr hh)
          exact le_trans (ih h h (by simp)) (le_of_not_lt hnlt)
      · by_cases hc : listCharLt (key b).data (key h).data = true
        · rw [if_pos hc]
          exact ih b x (by simp [hx''])
        · rw [if_neg hc]
          exact ih h x (by simp [hx''])

lemma selectFile_min {files : List String} {last : Option String} {m : String}
    (h : selectFile files last = some m) :
    m ∈ filteredFiles files last ∧
      ∀ g ∈ filteredFiles files last, (dateKey m).data ≤ (dateKey g).data := by
  unfold selectFile pythonMinBy at h
  rcases hf : filteredFiles files last with _ | ⟨a, t⟩
  · rw [hf] at h
    exact absurd h (by simp)
  · rw [hf] at h
    have hm : m = t.foldl
        (fun best x => if listCharLt (dateKey x).data (dateKey best).data then x else best) a :=
      (Option.some_injective _ h).symm
    rw [hm]
    exact ⟨foldl_min_mem dateKey a t, foldl_min_le dateKey a t⟩

lemma dlLoop_trace_bounds (env : DLEnv) :
    ∀ (fuel : Nat) (s : LoopSt), s.lastByte ≤ env.fileSize →
      (∀ x ∈ (dlLoop env fuel s).trace, s.lastByte ≤ x ∧ x ≤ env.fileSize) ∧
      List.Chain' (· ≤ ·) (dlLoop env fuel s).trace ∧
      s.lastByte ≤ (dlLoop env fuel s).st.lastByte ∧
      (dlLoop env fuel s).st.lastByte ≤ env.fileSize := by
  intro fuel
  induction fuel with
  | zero =>
    intro s hs
    simp [dlLoop, hs]
  | succ fuel ih =>
    intro s hs
    rw [dlLoop]
    by_cases h1 : env.fileSize ≤ s.lastByte
    · rw [if_pos h1]
      simp [hs]
    · rw [if_neg h1]
      dsimp only
      by_cases h2 : (decide (env.timeSeq s.tIdx % 10 = 0) && !env.aliveSeq s.aIdx) = true
      · rw [if_pos h2]
        simp [hs, le_of_not_le h1]
      · rw [if_neg h2]
        cases hr : env.readSeq s.rIdx with
        | none => simp [hs, le_of_not_le h1]
        | some n =>
          dsimp only
          by_cases h3 : min (min n CHUNK_SIZE) (env.fileSize - s.lastByte) = 0
          · rw [if_pos h3]
            simp [hs, le_of_not_le h1]
          · rw [if_neg h3]
            have hlen : s.lastByte + min (min n CHUNK_SIZE) (env.fileSize - s.lastByte) ≤ env.fileSize := by
              omega
            by_cases h4 : env.timeSeq (s.tIdx + 1) % 30 = 0
            · rw [if_pos h4]
              by_cases h5 : env.timeSeq (s.tIdx + 1 + 1) % 30 = 0
              · rw [if_pos h5]
                simp [hs, le_of_not_le h1]
                omega
              · rw [if_neg h5]
                have hrec := ih ⟨s.lastByte + min (min n CHUNK_SIZE) (env.fileSize - s.lastByte),
                  s.tIdx + 1 + 2, s.aIdx + (if decide (env.timeSeq s.tIdx % 10 = 0) then 1 else 0),
                  s.rIdx + 1, s.reads + 1⟩ hlen
                try dsimp only at hrec ⊢
                refine ⟨?_, ?_, ?_, hrec.2.2.2⟩
                · intro x hx
                  rcases List.mem_cons.1 hx with rfl | hx'
                  · exact ⟨le_refl _, le_of_not_le h1⟩
                  · have := hrec.1 x hx'
                    constructor
                    · omega
                    · exact this.2
                · rw [List.chain'_cons']
                  refine ⟨?_, hrec.2.1⟩
                  intro y hy
                  have hmem := List.mem_of_mem_head? hy
                  have := hrec.1 y hmem
                  omega
                · have := hrec.2.2.1
                  omega
            · rw [if_neg h4]
              have hrec := ih ⟨s.lastByte + min (min n CHUNK_SIZE) (env.fileSize - s.lastByte),
                s.tIdx + 1 + 1, s.aIdx + (if decide (env.timeSeq s.tIdx % 10 = 0) then 1 else 0),
                s.rIdx + 1, s.reads + 1⟩ hlen
              try dsimp only at hrec ⊢
              refine ⟨?_, ?_, ?_, hrec.2.2.2⟩
              · intro x hx
                rcases List.mem_cons.1 hx with rfl | hx'
                · exact ⟨le_refl _, le_of_not_le h1⟩
                · have := hrec.1 x hx'
                  constructor
                  · omega
                  · exact this.2
              · rw [List.chain'_cons']
                refine ⟨?_, hrec.2.1⟩
                intro y hy
                have hmem := List.mem_of_mem_head? hy
                have := hrec.1 y hmem
                omega
              · have := hrec.2.2.1
                omega

lemma dlLoop_probes (env : DLEnv) :
    ∀ (fuel : Nat) (s : LoopSt),
      (∀ p ∈ (dlLoop env fuel s).probes, p.1 % 10 = 0) ∧
      ((dlLoop env fuel s).exit ≠ LoopExit.watchdog →
        ∀ p ∈ (dlLoop env fuel s).probes, p.2 = true) := by
  intro fuel
  induction fuel with
  | zero => intro s; simp [dlLoop]
  | succ fuel ih =>
    intro s
    rw [dlLoop]
    by_cases h1 : env.fileSize ≤ s.lastByte
    · rw [if_pos h1]
      simp
    · rw [if_neg h1]
      dsimp only
      by_cases hwd : env.timeSeq s.tIdx % 10 = 0
      · have hwt : decide (env.timeSeq s.tIdx % 10 = 0) = true := decide_eq_true hwd
        cases hal : env.aliveSeq s.aIdx with
        | false =>
          simp only [hwt, hal, Bool.not_false, Bool.and_true, Bool.false_eq_true,
            eq_self_iff_true, ite_true, ite_false]
          constructor
          · intro p hp
            simp only [List.mem_singleton] at hp
            subst hp
            exact hwd
          · intro hex
            exact absurd rfl hex
        | true =>
          simp only [hwt, hal, Bool.not_true, Bool.and_false, Bool.false_eq_true,
            eq_self_iff_true, ite_true, ite_false]
          cases hr : env.readSeq s.rIdx with
          | none =>
            constructor
            · intro p hp
              simp only [List.mem_singleton] at hp
              subst hp
              exact hwd
            · intro _ p hp
              simp only [List.mem_singleton] at hp
              subst hp
              rfl
          | some n =>
            dsimp only
            by_cases h3 : min (min n CHUNK_SIZE) (env.fileSize - s.lastByte) = 0
            · rw [if_pos h3]
              constructor
              · intro p hp
                simp only [List.mem_singleton] at hp
                subst hp
                exact hwd
              · intro _ p hp
                simp only [List.mem_singleton] at hp
                subst hp
                rfl
            · rw [if_neg h3]
              by_cases h4 : env.timeSeq (s.tIdx + 1) % 30 = 0
              · rw [if_pos h4]
                by_cases h5 : env.timeSeq (s.tIdx + 1 + 1) % 30 = 0
                · rw [if_pos h5]
                  constructor
                  · intro p hp
                    simp only [List.mem_singleton] at hp
                    subst hp
                    exact hwd
                  · intro _ p hp
                    simp only [List.mem_singleton] at hp
                    subst hp
                    rfl
                · rw [if_neg h5]
                  have hrec := ih ⟨s.lastByte + min (min n CHUNK_SIZE) (env.fileSize - s.lastByte),
                    s.tIdx + 1 + 2, s.aIdx + 1, s.rIdx + 1, s.reads + 1⟩
                  constructor
                  · intro p hp
                    simp only [List.singleton_append, List.mem_cons] at hp
                    rcases hp with rfl | hp'
                    · exact hwd
                    · exact hrec.1 p hp'
                  · intro hex p hp
                    simp only [List.singleton_append, List.mem_cons] at hp
                    rcases hp with rfl | hp'
                    · rfl
                    · exact hrec.2 hex p hp'
              · rw [if_neg h4]
                have hrec := ih ⟨s.lastByte + min (min n CHUNK_SIZE) (env.fileSize - s.lastByte),
                  s.tIdx + 1 + 1, s.aIdx + 1, s.rIdx + 1, s.reads + 1⟩
                constructor
                · intro p hp
                  simp only [List.singleton_append, List.mem_cons] at hp
                  rcases hp with rfl | hp'
                  · exact hwd
                  · exact hrec.1 p hp'
                · intro hex p hp
                  simp only [List.singleton_append, List.mem_cons] at hp
                  rcases hp with rfl | hp'
                  · rfl
                  · exact hrec.2 hex p hp'
      · have hwf : decide (env.timeSeq s.tIdx % 10 = 0) = false := decide_eq_false hwd
        simp only [hwf, Bool.false_and, Bool.false_eq_true, ite_false]
        cases hr : env.readSeq s.rIdx with
        | none => simp
        | some n =>
          dsimp only
          by_cases h3 : min (min n CHUNK_SIZE) (env.fileSize - s.lastByte) = 0
          · rw [if_pos h3]
            simp
          · rw [if_neg h3]
            by_cases h4 : env.timeSeq (s.tIdx + 1) % 30 = 0
            · rw [if_pos h4]
              by_cases h5 : env.timeSeq (s.tIdx + 1 + 1) % 30 = 0
              · rw [if_pos h5]
                simp
              · rw [if_neg h5]
                have hrec := ih ⟨s.lastByte + min (min n CHUNK_SIZE) (env.fileSize - s.lastByte),
                  s.tIdx + 1 + 2, s.aIdx + 0, s.rIdx + 1, s.reads + 1⟩
                constructor
                · intro p hp
                  simp only [List.nil_append] at hp
                  exact hrec.1 p hp
                · intro hex p hp
                  simp only [List.nil_append] at hp
                  exact hrec.2 hex p hp
            · rw [if_neg h4]
              have hrec := ih ⟨s.lastByte + min (min n CHUNK_SIZE) (env.fileSize - s.lastByte),
                s.tIdx + 1 + 1, s.aIdx + 0, s.rIdx + 1, s.reads + 1⟩
              constructor
              · intro p hp
                simp only [List.nil_append] at hp
                exact hrec.1 p hp
              · intro hex p hp
                simp only [List.nil_append] at hp
                exact hrec.2 hex p hp

lemma download_probes_mod10 (env : DLEnv) :
    ∀ p ∈ (download_with_armor env).probes, p.1 % 10 = 0 := by
  unfold download_with_armor
  by_cases h : env.fileSize ≤ resumeOf env
  · rw [if_pos h]
    simp
  · rw [if_neg h]
    dsimp only
    exact (dlLoop_probes env (env.fileSize + 1) ⟨resumeOf env, 0, 0, 0, 0⟩).1

lemma download_dead_probe (env : DLEnv) :
    (∃ p ∈ (download_with_armor env).probes, p.2 = false) →
      (download_with_armor env).outcome = DLOutcome.watchdogError := by
  unfold download_with_armor
  by_cases h : env.fileSize ≤ resumeOf env
  · rw [if_pos h]
    rintro ⟨p, hp, -⟩
    simp at hp
  · rw [if_neg h]
    dsimp only
    rintro ⟨p, hp, hp2⟩
    have hprobes := (dlLoop_probes env (env.fileSize + 1) ⟨resumeOf env, 0, 0, 0, 0⟩).2
    rcases hx : (dlLoop env (env.fileSize + 1) ⟨resumeOf env, 0, 0, 0, 0⟩).exit with _ | _ | _ | _ | _
    · have hne : (dlLoop env (env.fileSize + 1) ⟨resumeOf env, 0, 0, 0, 0⟩).exit ≠
          LoopExit.watchdog := by
        rw [hx]
        exact fun hc => LoopExit.noConfusion hc
      have ht := hprobes hne p hp
      rw [ht] at hp2
      exact Bool.noConfusion hp2
    · rfl
    · have hne : (dlLoop env (env.fileSize + 1) ⟨resumeOf env, 0, 0, 0, 0⟩).exit ≠
          LoopExit.watchdog := by
        rw [hx]
        exact fun hc => LoopExit.noConfusion hc
      have ht := hprobes hne p hp
      rw [ht] at hp2
      exact Bool.noConfusion hp2
    · have hne : (dlLoop env (env.fileSize + 1) ⟨resumeOf env, 0, 0, 0, 0⟩).exit ≠
          LoopExit.watchdog := by
        rw [hx]
        exact fun hc => LoopExit.noConfusion hc
      have ht := hprobes hne p hp
      rw [ht] at hp2
      exact Bool.noConfusion hp2
    · have hne : (dlLoop env (env.fileSize + 1) ⟨resumeOf env, 0, 0, 0, 0⟩).exit ≠
          LoopExit.watchdog := by
        rw [hx]
        exact fun hc => LoopExit.noConfusion hc
      have ht := hprobes hne p hp
      rw [ht] at hp2
      exact Bool.noConfusion hp2

lemma download_success_final (env : DLEnv) (h : resumeOf env < env.fileSize) :
    (download_with_armor env).outcome = DLOutcome.success →
      (download_with_armor env).finalSize = env.fileSize := by
  unfold download_with_armor
  rw [if_neg (not_le.mpr h)]
  dsimp only
  rcases hx : (dlLoop env (env.fileSize + 1) ⟨resumeOf env, 0, 0, 0, 0⟩).exit with _ | _ | _ | _ | _
  · dsimp only
    by_cases heq : (dlLoop env (env.fileSize + 1) ⟨resumeOf env, 0, 0, 0, 0⟩).st.lastByte =
        env.fileSize
    · rw [if_pos heq]
      intro _
      exact heq
    · rw [if_neg heq]
      intro hc
      exact DLOutcome.noConfusion hc
  · intro hc
    exact DLOutcome.noConfusion hc
  · intro hc
    exact DLOutcome.noConfusion hc
  · intro hc
    exact DLOutcome.noConfusion hc
  · intro hc
    exact DLOutcome.noConfusion hc

lemma download_final_ge_resume (env : DLEnv) :
    resumeOf env ≤ (download_with_armor env).finalSize := by
  unfold download_with_armor
  by_cases h : env.fileSize ≤ resumeOf env
  · rw [if_pos h]
  · rw [if_neg h]
    dsimp only
    exact (dlLoop_trace_bounds env (env.fileSize + 1) ⟨resumeOf env, 0, 0, 0, 0⟩
      (le_of_not_le h)).2.2.1

lemma attemptCore_shape (a : AttemptEnv) (rec : Option String) :
    ((attemptCore a rec).1 = none → (attemptCore a rec).2.1 = rec ∧
      List.countP isWriteRecEv (attemptCore a rec).2.2 = 0) ∧
    sleeps (attemptCore a rec).2.2 = [] ∧
    List.countP isStartEv (attemptCore a rec).2.2 = 0 ∧
    List.countP isCloseEv (attemptCore a rec).2.2 = 0 ∧
    List.countP isWriteRecEv (attemptCore a rec).2.2 ≤ 1 ∧
    List.countP isReadRecEv (attemptCore a rec).2.2 ≤ 1 := by
  unfold attemptCore
  by_cases hc : a.connectOk = false
  · rw [if_pos hc]
    exact ⟨fun _ => ⟨rfl, by simp [recReadEvs, sleeps, isWriteRecEv, isStartEv, isCloseEv, isReadRecEv]⟩, by simp [recReadEvs, sleeps, isWriteRecEv, isStartEv, isCloseEv, isReadRecEv], by simp [recReadEvs, sleeps, isWriteRecEv, isStartEv, isCloseEv, isReadRecEv], by simp [recReadEvs, sleeps, isWriteRecEv, isStartEv, isCloseEv, isReadRecEv], by simp [recReadEvs, sleeps, isWriteRecEv, isStartEv, isCloseEv, isReadRecEv], by simp [recReadEvs, sleeps, isWriteRecEv, isStartEv, isCloseEv, isReadRecEv]⟩
  · rw [if_neg hc]
    dsimp only
    by_cases hf : (a.listing.filter (fun f => listContainsSub f.data ipiMarker)) = []
    · rw [if_pos hf]
      cases rec with
      | none =>
        exact ⟨fun hcon => Option.noConfusion hcon, by simp [recReadEvs, sleeps, isWriteRecEv, isStartEv, isCloseEv, isReadRecEv], by simp [recReadEvs, sleeps, isWriteRecEv, isStartEv, isCloseEv, isReadRecEv], by simp [recReadEvs, sleeps, isWriteRecEv, isStartEv, isCloseEv, isReadRecEv],
          by simp [recReadEvs, sleeps, isWriteRecEv, isStartEv, isCloseEv, isReadRecEv], by simp [recReadEvs, sleeps, isWriteRecEv, isStartEv, isCloseEv, isReadRecEv]⟩
      | some r =>
        exact ⟨fun hcon => Option.noConfusion hcon, by simp [recReadEvs, sleeps, isWriteRecEv, isStartEv, isCloseEv, isReadRecEv], by simp [recReadEvs, sleeps, isWriteRecEv, isStartEv, isCloseEv, isReadRecEv], by simp [recReadEvs, sleeps, isWriteRecEv, isStartEv, isCloseEv, isReadRecEv],
          by simp [recReadEvs, sleeps, isWriteRecEv, isStartEv, isCloseEv, isReadRecEv], by simp [recReadEvs, sleeps, isWriteRecEv, isStartEv, isCloseEv, isReadRecEv]⟩
    · rw [if_neg hf]
      cases hs : selectFile (a.listing.filter (fun f => listContainsSub f.data ipiMarker))
          (rec.map digitsOf) with
      | none =>
        cases rec with
        | none =>
          exact ⟨fun hcon => Option.noConfusion hcon, by simp [recReadEvs, sleeps, isWriteRecEv, isStartEv, isCloseEv, isReadRecEv], by simp [recReadEvs, sleeps, isWriteRecEv, isStartEv, isCloseEv, isReadRecEv], by simp [recReadEvs, sleeps, isWriteRecEv, isStartEv, isCloseEv, isReadRecEv],
            by simp [recReadEvs, sleeps, isWriteRecEv, isStartEv, isCloseEv, isReadRecEv], by simp [recReadEvs, sleeps, isWriteRecEv, isStartEv, isCloseEv, isReadRecEv]⟩
        | some r =>
          exact ⟨fun hcon => Option.noConfusion hcon, by simp [recReadEvs, sleeps, isWriteRecEv, isStartEv, isCloseEv, isReadRecEv], by simp [recReadEvs, sleeps, isWriteRecEv, isStartEv, isCloseEv, isReadRecEv], by simp [recReadEvs, sleeps, isWriteRecEv, isStartEv, isCloseEv, isReadRecEv],
            by simp [recReadEvs, sleeps, isWriteRecEv, isStartEv, isCloseEv, isReadRecEv], by simp [recReadEvs, sleeps, isWriteRecEv, isStartEv, isCloseEv, isReadRecEv]⟩
      | some rf =>
        dsimp only
        by_cases hd : a.downloadOk = false
        · rw [if_pos hd]
          cases rec with
          | none => exact ⟨fun _ => ⟨rfl, by simp [recReadEvs, sleeps, isWriteRecEv, isStartEv, isCloseEv, isReadRecEv]⟩, by simp [recReadEvs, sleeps, isWriteRecEv, isStartEv, isCloseEv, isReadRecEv], by simp [recReadEvs, sleeps, isWriteRecEv, isStartEv, isCloseEv, isReadRecEv], by simp [recReadEvs, sleeps, isWriteRecEv, isStartEv, isCloseEv, isReadRecEv],
              by simp [recReadEvs, sleeps, isWriteRecEv, isStartEv, isCloseEv, isReadRecEv], by simp [recReadEvs, sleeps, isWriteRecEv, isStartEv, isCloseEv, isReadRecEv]⟩
          | some r => exact ⟨fun _ => ⟨rfl, by simp [recReadEvs, sleeps, isWriteRecEv, isStartEv, isCloseEv, isReadRecEv]⟩, by simp [recReadEvs, sleeps, isWriteRecEv, isStartEv, isCloseEv, isReadRecEv], by simp [recReadEvs, sleeps, isWriteRecEv, isStartEv, isCloseEv, isReadRecEv], by simp [recReadEvs, sleeps, isWriteRecEv, isStartEv, isCloseEv, isReadRecEv],
              by simp [recReadEvs, sleeps, isWriteRecEv, isStartEv, isCloseEv, isReadRecEv], by simp [recReadEvs, sleeps, isWriteRecEv, isStartEv, isCloseEv, isReadRecEv]⟩
        · rw [if_neg hd]
          by_cases hw : a.recordWriteOk = false
          · rw [if_pos hw]
            cases rec with
            | none => exact ⟨fun _ => ⟨rfl, by simp [recReadEvs, sleeps, isWriteRecEv, isStartEv, isCloseEv, isReadRecEv]⟩, by simp [recReadEvs, sleeps, isWriteRecEv, isStartEv, isCloseEv, isReadRecEv], by simp [recReadEvs, sleeps, isWriteRecEv, isStartEv, isCloseEv, isReadRecEv], by simp [recReadEvs, sleeps, isWriteRecEv, isStartEv, isCloseEv, isReadRecEv],
                by simp [recReadEvs, sleeps, isWriteRecEv, isStartEv, isCloseEv, isReadRecEv], by simp [recReadEvs, sleeps, isWriteRecEv, isStartEv, isCloseEv, isReadRecEv]⟩
            | some r => exact ⟨fun _ => ⟨rfl, by simp [recReadEvs, sleeps, isWriteRecEv, isStartEv, isCloseEv, isReadRecEv]⟩, by simp [recReadEvs, sleeps, isWriteRecEv, isStartEv, isCloseEv, isReadRecEv], by simp [recReadEvs, sleeps, isWriteRecEv, isStartEv, isCloseEv, isReadRecEv], by simp [recReadEvs, sleeps, isWriteRecEv, isStartEv, isCloseEv, isReadRecEv],
                by simp [recReadEvs, sleeps, isWriteRecEv, isStartEv, isCloseEv, isReadRecEv], by simp [recReadEvs, sleeps, isWriteRecEv, isStartEv, isCloseEv, isReadRecEv]⟩
          · rw [if_neg hw]
            cases hcp : a.copyOk with
            | false =>
              cases rec with
              | none => exact ⟨fun hcon => Option.noConfusion hcon, by simp [recReadEvs, sleeps, isWriteRecEv, isStartEv, isCloseEv, isReadRecEv], by simp [recReadEvs, sleeps, isWriteRecEv, isStartEv, isCloseEv, isReadRecEv],
                  by simp [recReadEvs, sleeps, isWriteRecEv, isStartEv, isCloseEv, isReadRecEv], by simp [recReadEvs, sleeps, isWriteRecEv, isStartEv, isCloseEv, isReadRecEv], by simp [recReadEvs, sleeps, isWriteRecEv, isStartEv, isCloseEv, isReadRecEv]⟩
              | some r => exact ⟨fun hcon => Option.noConfusion hcon, by simp [recReadEvs, sleeps, isWriteRecEv, isStartEv, isCloseEv, isReadRecEv], by simp [recReadEvs, sleeps, isWriteRecEv, isStartEv, isCloseEv, isReadRecEv],
                  by simp [recReadEvs, sleeps, isWriteRecEv, isStartEv, isCloseEv, isReadRecEv], by simp [recReadEvs, sleeps, isWriteRecEv, isStartEv, isCloseEv, isReadRecEv], by simp [recReadEvs, sleeps, isWriteRecEv, isStartEv, isCloseEv, isReadRecEv]⟩
            | true =>
              cases rec with
              | none => exact ⟨fun hcon => Option.noConfusion hcon, by simp [recReadEvs, sleeps, isWriteRecEv, isStartEv, isCloseEv, isReadRecEv], by simp [recReadEvs, sleeps, isWriteRecEv, isStartEv, isCloseEv, isReadRecEv],
                  by simp [recReadEvs, sleeps, isWriteRecEv, isStartEv, isCloseEv, isReadRecEv], by simp [recReadEvs, sleeps, isWriteRecEv, isStartEv, isCloseEv, isReadRecEv], by simp [recReadEvs, sleeps, isWriteRecEv, isStartEv, isCloseEv, isReadRecEv]⟩
              | some r => exact ⟨fun hcon => Option.noConfusion hcon, by simp [recReadEvs, sleeps, isWriteRecEv, isStartEv, isCloseEv, isReadRecEv], by simp [recReadEvs, sleeps, isWriteRecEv, isStartEv, isCloseEv, isReadRecEv],
                  by simp [recReadEvs, sleeps, isWriteRecEv, isStartEv, isCloseEv, isReadRecEv], by simp [recReadEvs, sleeps, isWriteRecEv, isStartEv, isCloseEv, isReadRecEv], by simp [recReadEvs, sleeps, isWriteRecEv, isStartEv, isCloseEv, isReadRecEv]⟩

lemma runLoop_succ_some (env : Nat → AttemptEnv) (rec : Option String) (i fuel : Nat)
    (o : RunOutcome) (h : (attemptCore (env i) rec).1 = some o) :
    runLoop env rec i (fuel + 1) =
      ⟨o, (attemptCore (env i) rec).2.1,
       .attemptStart (i + 1) :: (attemptCore (env i) rec).2.2 ++ [.close]⟩ := by
  rw [runLoop]
  dsimp only
  rw [h]

lemma runLoop_succ_none (env : Nat → AttemptEnv) (rec : Option String) (i fuel : Nat)
    (h : (attemptCore (env i) rec).1 = none) :
    runLoop env rec i (fuel + 1) =
      ⟨(runLoop env (attemptCore (env i) rec).2.1 (i + 1) fuel).outcome,
       (runLoop env (attemptCore (env i) rec).2.1 (i + 1) fuel).record,
       (.attemptStart (i + 1) :: (attemptCore (env i) rec).2.2 ++
         (if i < MAX_RETRIES - 1 then [Ev.sleep (RETRY_BACKOFF.getD i 0)] else []) ++ [.close]) ++
       (runLoop env (attemptCore (env i) rec).2.1 (i + 1) fuel).events⟩ := by
  rw [runLoop]
  dsimp only
  rw [h]

lemma runLoop_head (env : Nat → AttemptEnv) (rec : Option String) (i fuel : Nat) :
    ∃ t, (runLoop env rec i (fuel + 1)).events = Ev.attemptStart (i + 1) :: t := by
  cases h : (attemptCore (env i) rec).1 with
  | none =>
    rw [runLoop_succ_none env rec i fuel h]
    exact ⟨_, rfl⟩
  | some o =>
    rw [runLoop_succ_some env rec i fuel o h]
    exact ⟨_, rfl⟩

lemma runLoop_close_eq_start (env : Nat → AttemptEnv) :
    ∀ (fuel i : Nat) (rec : Option String),
      List.countP isCloseEv (runLoop env rec i fuel).events =
      List.countP isStartEv (runLoop env rec i fuel).events := by
  intro fuel
  induction fuel with
  | zero => intro i rec; simp [runLoop]
  | succ fuel ih =>
    intro i rec
    have hsh := attemptCore_shape (env i) rec
    cases h : (attemptCore (env i) rec).1 with
    | some o =>
      rw [runLoop_succ_some env rec i fuel o h]
      simp [List.countP_cons, List.countP_append, isCloseEv, isStartEv,
        hsh.2.2.1, hsh.2.2.2.1]
    | none =>
      rw [runLoop_succ_none env rec i fuel h]
      by_cases hi : i < MAX_RETRIES - 1
      · simp [hi, List.countP_cons, List.countP_append, isCloseEv, isStartEv,
          hsh.2.2.1, hsh.2.2.2.1, ih]
      · simp [hi, List.countP_cons, List.countP_append, isCloseEv, isStartEv,
          hsh.2.2.1, hsh.2.2.2.1, ih]

lemma runLoop_write_le_one (env : Nat → AttemptEnv) :
    ∀ (fuel i : Nat) (rec : Option String),
      List.countP isWriteRecEv (runLoop env rec i fuel).events ≤ 1 := by
  intro fuel
  induction fuel with
  | zero => intro i rec; simp [runLoop]
  | succ fuel ih =>
    intro i rec
    have hsh := attemptCore_shape (env i) rec
    cases h : (attemptCore (env i) rec).1 with
    | some o =>
      rw [runLoop_succ_some env rec i fuel o h]
      simp [List.countP_cons, List.countP_append, isWriteRecEv]
      have := hsh.2.2.2.2.1
      omega
    | none =>
      rw [runLoop_succ_none env rec i fuel h]
      have hz := (hsh.1 h).2
      by_cases hi : i < MAX_RETRIES - 1
      · simp [hi, List.countP_cons, List.countP_append, isWriteRecEv, hz]
        have := ih (i + 1) (attemptCore (env i) rec).2.1
        simp [isWriteRecEv] at this
        omega
      · simp [hi, List.countP_cons, List.countP_append, isWriteRecEv, hz]
        have := ih (i + 1) (attemptCore (env i) rec).2.1
        simp [isWriteRecEv] at this
        omega

lemma runLoop_read_le_start (env : Nat → AttemptEnv) :
    ∀ (fuel i : Nat) (rec : Option String),
      List.countP isReadRecEv (runLoop env rec i fuel).events ≤
      List.countP isStartEv (runLoop env rec i fuel).events := by
  intro fuel
  induction fuel with
  | zero => intro i rec; simp [runLoop]
  | succ fuel ih =>
    intro i rec
    have hsh := attemptCore_shape (env i) rec
    cases h : (attemptCore (env i) rec).1 with
    | some o =>
      rw [runLoop_succ_some env rec i fuel o h]
      simp [List.countP_cons, List.countP_append, isReadRecEv, isStartEv, hsh.2.2.1]
      have := hsh.2.2.2.2.2
      simp [isReadRecEv] at this
      omega
    | none =>
      rw [runLoop_succ_none env rec i fuel h]
      have hr1 := hsh.2.2.2.2.2
      have hs0 := hsh.2.2.1
      have hrec := ih (i + 1) (attemptCore (env i) rec).2.1
      by_cases hi : i < MAX_RETRIES - 1
      · simp [hi, List.countP_cons, List.countP_append, isReadRecEv, isStartEv, hs0]
        simp [isReadRecEv, isStartEv] at hr1 hrec
        omega
      · simp [hi, List.countP_cons, List.countP_append, isReadRecEv, isStartEv, hs0]
        simp [isReadRecEv, isStartEv] at hr1 hrec
        omega

lemma not_mem_of_countP_start {evs : List Ev} (h : List.countP isStartEv evs = 0) (m : Nat) :
    Ev.attemptStart m ∉ evs := by
  intro hm
  have := List.countP_eq_zero.mp h _ hm
  simp [isStartEv] at this

lemma runLoop_fail_prefix (env : Nat → AttemptEnv) :
    ∀ (N i : Nat) (rec : Option String), i + N ≤ 6 →
      (∀ j, j < N → (attemptCore (env (i + j)) rec).1 = none) →
      ∃ pre t, (runLoop env rec i (7 - i)).events = pre ++ Ev.attemptStart (i + N + 1) :: t ∧
        sleeps pre = (RETRY_BACKOFF.drop i).take N ∧ Ev.attemptStart (i + N + 1) ∉ pre := by
  intro N
  induction N with
  | zero =>
    intro i rec h6 _
    have h7 : 7 - i = (6 - i) + 1 := by omega
    rw [h7]
    obtain ⟨t, ht⟩ := runLoop_head env rec i (6 - i)
    refine ⟨[], t, ?_, by simp [sleeps], by simp⟩
    simpa using ht
  | succ N ih =>
    intro i rec h6 hf
    have hi5 : i ≤ 5 := by omega
    have h7 : 7 - i = (6 - i) + 1 := by omega
    have hf0 : (attemptCore (env i) rec).1 = none := by
      have := hf 0 (Nat.succ_pos N)
      simpa using this
    have hsh := attemptCore_shape (env i) rec
    have hrec : (attemptCore (env i) rec).2.1 = rec := (hsh.1 hf0).1
    have hlt : i < MAX_RETRIES - 1 := by
      simp only [MAX_RETRIES]
      omega
    have h67 : 6 - i = 7 - (i + 1) := by omega
    rw [h7, runLoop_succ_none env rec i (6 - i) hf0, hrec, if_pos hlt, h67]
    obtain ⟨pre, t, hev, hsl, hnm⟩ := ih (i + 1) rec (by omega) (fun j hj => by
      have hj' := hf (j + 1) (by omega)
      have hadd : i + (j + 1) = i + 1 + j := by omega
      rwa [hadd] at hj')
    have hm : i + (N + 1) + 1 = i + 1 + N + 1 := by omega
    refine ⟨Ev.attemptStart (i + 1) :: (attemptCore (env i) rec).2.2 ++
      [Ev.sleep (RETRY_BACKOFF.getD i 0)] ++ [Ev.close] ++ pre, t, ?_, ?_, ?_⟩
    · try dsimp only
      rw [hev, hm]
      simp [List.append_assoc, List.cons_append]
    · have hse : sleeps (attemptCore (env i) rec).2.2 = [] := hsh.2.1
      simp only [sleeps] at hse ⊢
      simp only [List.filterMap_cons, List.filterMap_append, hse]
      simp only [sleeps] at hsl
      rw [hsl]
      try dsimp only
      interval_cases i <;> simp [RETRY_BACKOFF, List.take_succ_cons]
    · rw [hm]
      intro hmem
      rcases List.mem_append.mp hmem with hL3 | h6
      · rcases List.mem_append.mp hL3 with hL2 | h5
        · rcases List.mem_append.mp hL2 with hL1 | h3
          · rcases List.mem_cons.mp hL1 with h1 | h2
            · simp only [Ev.attemptStart.injEq] at h1
              omega
            · exact not_mem_of_countP_start hsh.2.2.1 _ h2
          · simp at h3
        · simp at h5
      · exact hnm h6

lemma runLoop_all_fail (env : Nat → AttemptEnv) (rec : Option String)
    (h : ∀ j, (attemptCore (env j) rec).1 = none) :
    ∀ (fuel i : Nat), i + fuel = 7 →
      (runLoop env rec i fuel).outcome = RunOutcome.exhausted ∧
      sleeps (runLoop env rec i fuel).events = (RETRY_BACKOFF.drop i).take (fuel - 1) ∧
      List.countP isStartEv (runLoop env rec i fuel).events = fuel := by
  intro fuel
  induction fuel with
  | zero =>
    intro i hi
    simp [runLoop, sleeps]
  | succ fuel ih =>
    intro i hi
    have hsh := attemptCore_shape (env i) rec
    have hse : sleeps (attemptCore (env i) rec).2.2 = [] := hsh.2.1
    have hs0 : List.countP isStartEv (attemptCore (env i) rec).2.2 = 0 := hsh.2.2.1
    have hrec : (attemptCore (env i) rec).2.1 = rec := (hsh.1 (h i)).1
    rw [runLoop_succ_none env rec i fuel (h i), hrec]
    rcases Nat.eq_zero_or_pos fuel with hf0 | hfpos
    · subst hf0
      have hi6 : i = 6 := by omega
      subst hi6
      have hnlt : ¬ (6 < MAX_RETRIES - 1) := by simp [MAX_RETRIES]
      rw [if_neg hnlt]
      refine ⟨by simp [runLoop], ?_, ?_⟩
      · simp only [sleeps, runLoop] at hse ⊢
        simp [List.filterMap_append, List.filterMap_cons, hse]
      · simp only [runLoop]
        simp [List.countP_cons, List.countP_append, isStartEv, hs0]
    · obtain ⟨g, rfl⟩ : ∃ g, fuel = g + 1 := ⟨fuel - 1, by omega⟩
      have hlt : i < MAX_RETRIES - 1 := by
        simp only [MAX_RETRIES]
        omega
      rw [if_pos hlt]
      have hrec3 := ih (i + 1) (by omega)
      refine ⟨?_, ?_, ?_⟩
      · try dsimp only
        exact hrec3.1
      · simp only [sleeps] at hse hrec3 ⊢
        simp only [List.filterMap_append, List.filterMap_cons, hse]
        rw [hrec3.2.1]
        try dsimp only
        have hi5 : i ≤ 5 := by omega
        interval_cases i <;> simp [RETRY_BACKOFF, List.take_succ_cons]
      · simp only [List.countP_cons, List.countP_append]
        rw [hrec3.2.2]
        simp [isStartEv, hs0]
        omega

lemma attemptCore_success_eq (a : AttemptEnv) (rec : Option String) (rf : String)
    (hconn : a.connectOk = true)
    (hne : a.listing.filter (fun f => listContainsSub f.data ipiMarker) ≠ [])
    (hsel : selectFile (a.listing.filter (fun f => listContainsSub f.data ipiMarker))
      (rec.map digitsOf) = some rf)
    (hdl : a.downloadOk = true) (hw : a.recordWriteOk = true) :
    attemptCore a rec = (some RunOutcome.accomplished, some rf,
      recReadEvs rec ++ [Ev.writeRecord] ++ (if a.copyOk then [Ev.copy] else [])) := by
  unfold attemptCore
  simp only [hconn, Bool.true_eq_false, ite_false]
  rw [if_neg hne, hsel]
  simp only [hdl, hw, Bool.true_eq_false, ite_false]

lemma attemptCore_wfail_eq (a : AttemptEnv) (rec : Option String) (rf : String)
    (hconn : a.connectOk = true)
    (hne : a.listing.filter (fun f => listContainsSub f.data ipiMarker) ≠ [])
    (hsel : selectFile (a.listing.filter (fun f => listContainsSub f.data ipiMarker))
      (rec.map digitsOf) = some rf)
    (hdl : a.downloadOk = true) (hw : a.recordWriteOk = false) :
    attemptCore a rec = (none, rec, recReadEvs rec) := by
  unfold attemptCore
  simp only [hconn, Bool.true_eq_false, ite_false]
  rw [if_neg hne, hsel]
  simp only [hdl, hw, Bool.true_eq_false, ite_false, eq_self_iff_true, ite_true]

lemma attemptCore_dlfail (a : AttemptEnv) (rec : Option String) (hd : a.downloadOk = false) :
    Ev.writeRecord ∉ (attemptCore a rec).2.2 ∧ (attemptCore a rec).2.1 = rec := by
  unfold attemptCore
  by_cases hc : a.connectOk = false
  · rw [if_pos hc]
    exact ⟨by simp, rfl⟩
  · rw [if_neg hc]
    dsimp only
    by_cases hf : (a.listing.filter (fun f => listContainsSub f.data ipiMarker)) = []
    · rw [if_pos hf]
      cases rec <;> exact ⟨by simp [recReadEvs], rfl⟩
    · rw [if_neg hf]
      cases hs : selectFile (a.listing.filter (fun f => listContainsSub f.data ipiMarker))
          (rec.map digitsOf) with
      | none => cases rec <;> exact ⟨by simp [recReadEvs], rfl⟩
      | some rf =>
        dsimp only
        simp only [hd, eq_self_iff_true, ite_true]
        cases rec <;> exact ⟨by simp [recReadEvs], trivial⟩

/-- Claim C1: if the local file exists with size at least the remote
stat-reported size, `download_with_armor` returns success immediately: no
chunk read is issued, no watchdog probe runs, the chunk loop is never
entered, and the local file is left at its original size. -/
theorem download_already_complete_short_circuit (env : DLEnv) (n : Nat)
    (hloc : env.localSize = some n) (hge : env.fileSize ≤ n) :
    (download_with_armor env).outcome = DLOutcome.success ∧
    (download_with_armor env).finalSize = n ∧
    (download_with_armor env).chunkReads = 0 ∧
    (download_with_armor env).probes = [] ∧
    (download_with_armor env).trace = [] := by
  have hres : resumeOf env = n := by simp [resumeOf, hloc]
  unfold download_with_armor
  rw [hres, if_pos hge]
  exact ⟨rfl, rfl, rfl, rfl, rfl⟩

/-- Witness for C1: a 5-byte remote file with a 7-byte local copy. -/
theorem download_already_complete_short_circuit_witness :
    envComplete.localSize = some 7 ∧ envComplete.fileSize ≤ 7 ∧
    (download_with_armor envComplete).outcome = DLOutcome.success ∧
    (download_with_armor envComplete).finalSize = 7 ∧
    (download_with_armor envComplete).chunkReads = 0 := by
  have h := download_already_complete_short_circuit envComplete 7 rfl (by decide)
  exact ⟨rfl, by decide, h.1, h.2.1, h.2.2.1⟩

/-- Claim C2: the selection step keeps exactly the candidates with an
exactly-8-digit token that is strictly greater than the record's token (all
8-digit candidates when no record exists), and the selected file is an
eligible candidate whose date token is least among the eligible ones.
`rd` is the record's 8-digit date token (`extract_date r = some rd`); tokens
are compared as Python compares strings, lexicographically by code point
(`<`/`≤` on the underlying character lists). -/
theorem selection_filter_and_min (files : List String) (record : Option String) :
    (record = none →
      ∀ f, f ∈ filteredFiles files (record.map digitsOf) ↔
        f ∈ files ∧ (extract_date f).isSome) ∧
    (∀ r rd, record = some r → extract_date r = some rd →
      ∀ f, f ∈ filteredFiles files (record.map digitsOf) ↔
        f ∈ files ∧ ∃ d, extract_date f = some d ∧ rd.data < d.data) ∧
    (∀ m, selectFile files (record.map digitsOf) = some m →
      m ∈ filteredFiles files (record.map digitsOf) ∧
      ∀ g ∈ filteredFiles files (record.map digitsOf),
        (dateKey m).data ≤ (dateKey g).data) := by
  refine ⟨?_, ?_, ?_⟩
  · rintro rfl f
    rw [mem_filteredFiles_iff]
    simp [Option.isSome_iff_exists]
  · rintro r rd rfl hrd f
    rw [mem_filteredFiles_iff]
    have hd := extract_date_digits hrd
    simp [hd]
  · intro m hm
    exact selectFile_min hm

/-- Witness for C2: the spec's own example — candidates
`20250101.IPI`, `20250102.IPI`, `bad.IPI` with last record `20250101.IPI`
select `20250102.IPI`, which is eligible and has the least date token;
`bad.IPI` is ignored. -/
theorem selection_filter_and_min_witness :
    ("20250102.IPI" ∈ filteredFiles ["20250101.IPI", "20250102.IPI", "bad.IPI"]
      ((some "20250101.IPI").map digitsOf)) ∧
    ("bad.IPI" ∉ filteredFiles ["20250101.IPI", "20250102.IPI", "bad.IPI"]
      ((some "20250101.IPI").map digitsOf)) ∧
    ∀ g ∈ filteredFiles ["20250101.IPI", "20250102.IPI", "bad.IPI"]
      ((some "20250101.IPI").map digitsOf),
      (dateKey "20250102.IPI").data ≤ (dateKey g).data := by
  have h := selection_filter_and_min ["20250101.IPI", "20250102.IPI", "bad.IPI"]
    (some "20250101.IPI")
  have hiff := h.2.1 "20250101.IPI" "20250101" rfl (by decide)
  have hmin := h.2.2 "20250102.IPI" (by decide)
  refine ⟨?_, ?_, hmin.2⟩
  · refine (hiff "20250102.IPI").mpr ⟨by decide, "20250102", by decide, ?_⟩
    exact (listCharLt_iff _ _).mp (by decide)
  · intro hbad
    obtain ⟨-, d, hd, -⟩ := (hiff "bad.IPI").mp hbad
    have : digitsOf "bad.IPI" = d := extract_date_digits hd
    have hlen := congrArg String.length this
    simp [digitsOf] at hlen
    have hlen8 : d.length = 8 := by
      have := hd
      simp only [extract_date] at this
      split at this
      · next hcond => exact (Option.some_injective _ this) ▸ hcond
      · exact Option.noConfusion this
    omega

/-- Claim C9: within one `download_with_armor` call, the `last_byte` counter
is monotonically non-decreasing across the chunk loop, and at every
evaluation of the loop condition it satisfies
`resumeOffset ≤ last_byte ≤ totalSize`. -/
theorem transfer_state_invariant (env : DLEnv) :
    List.Chain' (· ≤ ·) (download_with_armor env).trace ∧
    ∀ x ∈ (download_with_armor env).trace, resumeOf env ≤ x ∧ x ≤ env.fileSize := by
  unfold download_with_armor
  by_cases h : env.fileSize ≤ resumeOf env
  · rw [if_pos h]
    constructor
    · simp
    · simp
  · rw [if_neg h]
    dsimp only
    have hb := dlLoop_trace_bounds env (env.fileSize + 1)
      ⟨resumeOf env, 0, 0, 0, 0⟩ (le_of_not_le h)
    exact ⟨hb.2.1, hb.1⟩

/-- Witness for C9: a resumed download (1 byte local, 3 remote) whose trace
is `[1, 2, 3]`. -/
theorem transfer_state_invariant_witness :
    List.Chain' (· ≤ ·) (download_with_armor envResume).trace ∧
    ∀ x ∈ (download_with_armor envResume).trace,
      resumeOf envResume ≤ x ∧ x ≤ envResume.fileSize :=
  transfer_state_invariant envResume

/-- Claim C10: with the wall clock stuck at a multiple of 30 seconds, the
progress-reporting guard `time.time() % 30 == 0` holds and the freshly
re-evaluated divisor `time.time() % 30` is zero, so the reporting branch
raises `ZeroDivisionError` — the division is only safe if the clock advances
off the multiple of 30 between the guard and the division. -/
theorem progress_divzero_reachable :
    (download_with_armor envDivZero).outcome = DLOutcome.divByZero ∧
    (download_with_armor envDivZero).probes = [(30, true)] := by
  exact ⟨rfl, rfl⟩

/-- Claim C4: when the chunk loop ends (no in-loop abort) and the final local
size differs from the stat-reported remote size, the download fails with the
verification error; the bytes written stay on disk (the final size is at
least the resume offset — nothing is deleted); and an attempt whose download
raised writes no last-completed record and leaves the record unchanged. -/
theorem verification_failure_behavior :
    (∀ env : DLEnv, resumeOf env < env.fileSize →
      ((download_with_armor env).outcome = DLOutcome.success ∨
        (download_with_armor env).outcome = DLOutcome.verifyError) →
      (download_with_armor env).finalSize ≠ env.fileSize →
      (download_with_armor env).outcome = DLOutcome.verifyError ∧
        resumeOf env ≤ (download_with_armor env).finalSize) ∧
    (∀ (a : AttemptEnv) (rec : Option String), a.downloadOk = false →
      Ev.writeRecord ∉ (attemptCore a rec).2.2 ∧ (attemptCore a rec).2.1 = rec) := by
  constructor
  · intro env hlt hor hne
    refine ⟨?_, download_final_ge_resume env⟩
    rcases hor with hs | hv
    · exact absurd (download_success_final env hlt hs) hne
    · exact hv
  · intro a rec hd
    exact attemptCore_dlfail a rec hd

/-- Witness for C4: a first read of zero bytes breaks the loop at 0 of 5
bytes; verification fails, the partial file stays, no record is written. -/
theorem verification_failure_behavior_witness :
    (download_with_armor envShortRead).outcome = DLOutcome.verifyError ∧
    resumeOf envShortRead ≤ (download_with_armor envShortRead).finalSize ∧
    Ev.writeRecord ∉ (attemptCore attemptDownloadFails none).2.2 := by
  have h := verification_failure_behavior
  have h1 := h.1 envShortRead (by decide) (Or.inr (by decide)) (by decide)
  exact ⟨h1.1, h1.2, (h.2 attemptDownloadFails none rfl).1⟩

/-- Counterexample to claim C7 as stated: with the clock reading 10 on two
consecutive chunk iterations, the `time.time() % 10 == 0` gate fires twice
with zero wall-clock time between the probes, so the probe does not run
"only when the ~10-second sampling interval has elapsed since the previous
probe" and runs more than once per interval. -/
theorem watchdog_cadence_counterexample :
    (download_with_armor envDoubleProbe).probes = [(10, true), (10, true)] ∧
    ¬ List.Chain' (fun p q : Nat × Bool => p.1 + 10 ≤ q.1)
      (download_with_armor envDoubleProbe).probes := by
  have hp : (download_with_armor envDoubleProbe).probes = [(10, true), (10, true)] := rfl
  refine ⟨hp, ?_⟩
  rw [hp]
  intro hch
  have h1 := (List.chain'_cons.mp hch).1
  omega

/-- Claim C7 amended: the watchdog probe is sampled exactly at chunk
iterations where the current `time.time()` reading is divisible by 10 (so
not on every chunk, but possibly several times within one interval, or
never), and whenever a sampled probe reports not-alive the attempt aborts
with the watchdog transfer error. -/
theorem watchdog_cadence_amended (env : DLEnv) :
    (∀ p ∈ (download_with_armor env).probes, p.1 % 10 = 0) ∧
    ((∃ p ∈ (download_with_armor env).probes, p.2 = false) →
      (download_with_armor env).outcome = DLOutcome.watchdogError) :=
  ⟨download_probes_mod10 env, download_dead_probe env⟩

/-- Witness for C7 amended: a dead probe at time 10 aborts the attempt. -/
theorem watchdog_cadence_amended_witness :
    (∀ p ∈ (download_with_armor envDeadProbe).probes, p.1 % 10 = 0) ∧
    (download_with_armor envDeadProbe).outcome = DLOutcome.watchdogError := by
  have h := watchdog_cadence_amended envDeadProbe
  refine ⟨h.1, h.2 ⟨(10, false), ?_, rfl⟩⟩
  rw [(rfl : (download_with_armor envDeadProbe).probes = [(10, false)])]
  exact List.mem_singleton.mpr rfl

/-- Claim C5: the backoff schedule is the fixed strictly increasing list
`[5, 10, 30, 60, 120, 300, 600]`; after N consecutive attempt failures
(N ≤ 6) the sleeps performed before attempt N+1 starts are exactly the first
N delays, so the sleep just before attempt N+1 is the N-th delay; and after
7 consecutive failures the run stops with the last error reported, exactly 7
attempts, and no sleep after the 7th failure (total sleeps
`[5, 10, 30, 60, 120, 300]`). -/
theorem retry_backoff_schedule (env : Nat → AttemptEnv) (rec : Option String) :
    (RETRY_BACKOFF = [5, 10, 30, 60, 120, 300, 600] ∧
      List.Chain' (· < ·) RETRY_BACKOFF) ∧
    (∀ N, N ≤ 6 → (∀ j, j < N → (attemptCore (env j) rec).1 = none) →
      ∃ pre t, (runMain env rec).events = pre ++ Ev.attemptStart (N + 1) :: t ∧
        sleeps pre = RETRY_BACKOFF.take N ∧ Ev.attemptStart (N + 1) ∉ pre) ∧
    ((∀ j, (attemptCore (env j) rec).1 = none) →
      (runMain env rec).outcome = RunOutcome.exhausted ∧
      sleeps (runMain env rec).events = [5, 10, 30, 60, 120, 300] ∧
      List.countP isStartEv (runMain env rec).events = MAX_RETRIES) := by
  refine ⟨⟨rfl, by norm_num [RETRY_BACKOFF, List.chain'_cons, List.chain'_singleton]⟩, ?_, ?_⟩
  · intro N hN hfail
    have h := runLoop_fail_prefix env N 0 rec (by omega) (fun j hj => by
      simpa using hfail j hj)
    simpa [runMain, MAX_RETRIES] using h
  · intro hfail
    have h := runLoop_all_fail env rec hfail 7 0 (by omega)
    simpa [runMain, MAX_RETRIES, RETRY_BACKOFF] using h

/-- Witness for C5: with every attempt failing at connect, the run is
exhausted after sleeps `5,10,30,60,120,300`, and before attempt 3 the sleeps
are exactly `[5, 10]`. -/
theorem retry_backoff_schedule_witness :
    (runMain envAllFail none).outcome = RunOutcome.exhausted ∧
    sleeps (runMain envAllFail none).events = [5, 10, 30, 60, 120, 300] ∧
    ∃ pre t, (runMain envAllFail none).events = pre ++ Ev.attemptStart 3 :: t ∧
      sleeps pre = [5, 10] ∧ Ev.attemptStart 3 ∉ pre := by
  have h := retry_backoff_schedule envAllFail none
  have h2 := h.2.2 (fun j => rfl)
  have h3 := h.2.1 2 (by omega) (fun j hj => rfl)
  exact ⟨h2.1, h2.2.1, h3⟩

/-- Claim C6: `close()` never raises, whatever the connection state (never
opened, partially opened, open, already closed — the two inner `close()`
calls may themselves fail and are swallowed); and in every run of `main`
the connection teardown runs exactly once per attempt, whatever the
attempt's outcome (success, failure, or early return). -/
theorem close_teardown_safety :
    (∀ (hasSftp hasTransport : Bool) (r1 r2 : Except String Unit),
      MilitaryGradeSFTP.close hasSftp hasTransport r1 r2 = Except.ok ()) ∧
    (∀ (env : Nat → AttemptEnv) (rec : Option String),
      List.countP isCloseEv (runMain env rec).events =
      List.countP isStartEv (runMain env rec).events) := by
  constructor
  · intro h1 h2 r1 r2
    unfold MilitaryGradeSFTP.close
    cases h1 <;> cases h2 <;> cases r1 <;> cases r2 <;> rfl
  · intro env rec
    exact runLoop_close_eq_start env MAX_RETRIES 0 rec

/-- Counterexample to claim C8 as stated: in a run whose first attempt fails
after reading the record and whose second attempt succeeds, the persisted
last-completed record is read twice — not "at most once per run". -/
theorem record_read_once_counterexample :
    List.countP isReadRecEv (runMain envSecondTry (some "20250101.IPI")).events = 2 ∧
    ¬ List.countP isReadRecEv (runMain envSecondTry (some "20250101.IPI")).events ≤ 1 := by
  decide

/-- Claim C8 amended: the record is read at most once per attempt (it is
re-read inside every attempt of the retry loop, before selection), hence at
most `MAX_RETRIES` times per run, and it is successfully written at most
once per run. -/
theorem record_read_write_amended :
    (∀ (env : Nat → AttemptEnv) (rec : Option String),
      List.countP isWriteRecEv (runMain env rec).events ≤ 1 ∧
      List.countP isReadRecEv (runMain env rec).events ≤
        List.countP isStartEv (runMain env rec).events) ∧
    (∀ (a : AttemptEnv) (rec : Option String),
      List.countP isReadRecEv (attemptCore a rec).2.2 ≤ 1) := by
  constructor
  · intro env rec
    exact ⟨runLoop_write_le_one env MAX_RETRIES 0 rec,
      runLoop_read_le_start env MAX_RETRIES 0 rec⟩
  · intro a rec
    exact (attemptCore_shape a rec).2.2.2.2.2

/-- Counterexample to claim C3 as stated: attempt 1 downloads successfully
but the record write raises; the run does NOT terminate as a success — it
sleeps 5 seconds and starts attempt 2 (and, with later connects failing,
ends exhausted). -/
theorem recording_failure_retries_counterexample :
    (runMain envRecordWriteFails (some "20250101.IPI")).outcome = RunOutcome.exhausted ∧
    Ev.sleep 5 ∈ (runMain envRecordWriteFails (some "20250101.IPI")).events ∧
    Ev.attemptStart 2 ∈ (runMain envRecordWriteFails (some "20250101.IPI")).events := by
  decide

/-- Claim C3 amended: after a verified successful download, a failure of the
copy to the distribution directory is caught and only logged — the run still
returns success in that same attempt with no retry (this holds whatever
`copyOk` is); but a failure persisting the last-completed record propagates
out of the `try` block, fails the attempt, and triggers the backoff-retry
path (sleep, then attempt 2). -/
theorem recording_failure_amended (env : Nat → AttemptEnv) (rec : Option String) (rf : String)
    (hconn : (env 0).connectOk = true)
    (hne : (env 0).listing.filter (fun f => listContainsSub f.data ipiMarker) ≠ [])
    (hsel : selectFile ((env 0).listing.filter (fun f => listContainsSub f.data ipiMarker))
      (rec.map digitsOf) = some rf)
    (hdl : (env 0).downloadOk = true) :
    ((env 0).recordWriteOk = true →
      (runMain env rec).outcome = RunOutcome.accomplished ∧
      (runMain env rec).record = some rf ∧
      sleeps (runMain env rec).events = [] ∧
      List.countP isStartEv (runMain env rec).events = 1) ∧
    ((env 0).recordWriteOk = false →
      Ev.sleep 5 ∈ (runMain env rec).events ∧
      Ev.attemptStart 2 ∈ (runMain env rec).events) := by
  constructor
  · intro hw
    have hac := attemptCore_success_eq (env 0) rec rf hconn hne hsel hdl hw
    have h1 : (attemptCore (env 0) rec).1 = some RunOutcome.accomplished := by rw [hac]
    have hstep := runLoop_succ_some env rec 0 6 RunOutcome.accomplished h1
    have hrm : runMain env rec = runLoop env rec 0 (6 + 1) := rfl
    rw [hrm, hstep, hac]
    refine ⟨rfl, rfl, ?_, ?_⟩
    · cases rec <;> cases hcp : (env 0).copyOk <;>
        simp [sleeps, recReadEvs, hcp]
    · cases rec <;> cases hcp : (env 0).copyOk <;>
        simp [isStartEv, recReadEvs, hcp, List.countP_cons, List.countP_append]
  · intro hw
    have hac := attemptCore_wfail_eq (env 0) rec rf hconn hne hsel hdl hw
    have h1 : (attemptCore (env 0) rec).1 = none := by rw [hac]
    have hrec2 : (attemptCore (env 0) rec).2.1 = rec := by rw [hac]
    have hstep := runLoop_succ_none env rec 0 6 h1
    have hrm : runMain env rec = runLoop env rec 0 (6 + 1) := rfl
    have hlt : (0 : Nat) < MAX_RETRIES - 1 := by simp [MAX_RETRIES]
    rw [hrm, hstep, hrec2, if_pos hlt]
    constructor
    · simp [RETRY_BACKOFF]
    · obtain ⟨t, ht⟩ := runLoop_head env rec 1 5
      have h01 : (0 : Nat) + 1 = 1 := rfl
      rw [h01, ht]
      simp

/-- Witness for C3 amended: concrete runs for both halves — copy failure
still accomplishes the run in one attempt; record-write failure sleeps and
starts attempt 2. -/
theorem recording_failure_amended_witness :
    ((runMain envCopyFails (some "20250101.IPI")).outcome = RunOutcome.accomplished ∧
      (runMain envCopyFails (some "20250101.IPI")).record = some "20250102.IPI" ∧
      sleeps (runMain envCopyFails (some "20250101.IPI")).events = []) ∧
    (Ev.sleep 5 ∈ (runMain envRecordWriteFails (some "20250101.IPI")).events ∧
      Ev.attemptStart 2 ∈ (runMain envRecordWriteFails (some "20250101.IPI")).events) := by
  have ha := recording_failure_amended envCopyFails (some "20250101.IPI") "20250102.IPI"
    rfl (by decide) (by decide) rfl
  have hb := recording_failure_amended envRecordWriteFails (some "20250101.IPI") "20250102.IPI"
    rfl (by decide) (by decide) rfl
  have ha1 := ha.1 rfl
  have hb1 := hb.2 rfl
  exact ⟨⟨ha1.1, ha1.2.1, ha1.2.2.1⟩, hb1⟩
